import Mathlib

/-!
Shallow embedding of the audience_market_sim trading core (src/src/model/*)
and proofs about it.

Modelling conventions:
* Rust `f64` values are modelled as exact rationals (`ℚ`); the formulas in the
  source are affine/min/max/rounding expressions for which the rational
  semantics is the intended ideal of the floating computation.
* Rust `u64` / `u16` values are modelled as `ℕ`; the `f64 -> u16` saturating
  cast is modelled explicitly by `f64_as_u16`.  `u16` wrap-around on addition
  is not modelled (no claim exercises values near 65536).
* `HashMap` is modelled as an association list with no duplicate keys
  (`assocInsert` replaces, `assocLookup` queries); `LinkedList` queues are
  `List` with `push_back = ++ [x]` and `pop_front = head/tail`.
* Panics (`todo!()`, `.expect`, `.unwrap` on a missing key, the non-exhaustive
  match in `get_range_change_ratio`) are modelled by `Option`, `none` being
  the panic.
* Randomness is modelled by passing each sampled value as an explicit
  argument; the constraints the rng imposes (`gen_range(a..b)` yields a value
  in `[a, b)`) appear as hypotheses of the theorems.
* Logging, names and the logger collaborator are pure sinks in the source
  (errors swallowed); they are omitted from the state.
-/

/-- Rust `f64::round`: nearest integer, ties away from zero. -/
def rustRound (x : ℚ) : ℤ :=
  if 0 ≤ x then ⌊x + 1/2⌋ else -⌊-x + 1/2⌋

/-- From src/src/model/util.rs: `round_to_nearest_cent(x) = (x * 100.0).round() / 100.0`. -/
def round_to_nearest_cent (x : ℚ) : ℚ :=
  (rustRound (x * 100) : ℚ) / 100

/-- From src/src/model/util.rs: regenerate a range centred at `price`, with half-width
`(width/2) * shrink_rate` (all cent-rounded), lower clamped at 0, and a degenerate
result bumped to `new_min + 0.01`. -/
def gen_new_range_with_price (price : ℚ) (old_range : ℚ × ℚ) (shrink_rate : ℚ) : ℚ × ℚ :=
  let width := round_to_nearest_cent (old_range.2 - old_range.1)
  let new_half_width := round_to_nearest_cent ((width / 2) * shrink_rate)
  let new_min := max (round_to_nearest_cent (price - new_half_width)) 0
  let new_max := round_to_nearest_cent (price + new_half_width)
  if new_max ≤ new_min then (new_min, new_min + 1/100) else (new_min, new_max)

/-- From src/src/model/util.rs: multiply both endpoints by `1 + rate`, clamp the lower
endpoint at 0, cent-round, and bump a degenerate result to `new_min + 0.01`. -/
def shift_range_by_ratio (old_range : ℚ × ℚ) (rate : ℚ) : ℚ × ℚ :=
  let new_max := round_to_nearest_cent (old_range.2 * (1 + rate))
  let new_min := round_to_nearest_cent (max (old_range.1 * (1 + rate)) 0)
  if new_max ≤ new_min then (new_min, new_min + 1/100) else (new_min, new_max)

/-- From src/src/model/product.rs: the product categories. -/
inductive ProductCategory where
  | Food
  | Water
  | Clothing
  | Entertainment
deriving DecidableEq, Repr

/-- From src/src/model/agent.rs: how an offered price relates to an agent's range. -/
inductive IntervalRelation where
  | Overlapping (price : ℚ)
  | AgentBelowFactory
  | AgentAboveFactory
  | CashBurnedOut
deriving DecidableEq, Repr

/-- From src/src/model/agent.rs: the outcome of a negotiation. -/
inductive TradeResult where
  | NotYet
  | NotMatched
  | Success (price : ℚ)
  | Failed
deriving DecidableEq, Repr

/-- HashMap `get`: the value stored at the first (unique) entry with the given key. -/
def assocLookup {α β : Type} [DecidableEq α] (k : α) : List (α × β) → Option β
  | [] => none
  | (k2, v) :: rest => if k2 = k then some v else assocLookup k rest

/-- HashMap `insert`: replace the value when the key is present, else add the entry. -/
def assocInsert {α β : Type} [DecidableEq α] (k : α) (v : β) (l : List (α × β)) :
    List (α × β) :=
  if (assocLookup k l).isSome then
    l.map (fun p => if p.1 = k then (k, v) else p)
  else
    (k, v) :: l

/-- HashMap `entry(k).and_modify(g)`: apply `g` to the value at `k` when present,
do nothing otherwise. -/
def assocModify {α β : Type} [DecidableEq α] (k : α) (g : β → β) (l : List (α × β)) :
    List (α × β) :=
  l.map (fun p => if p.1 = k then (p.1, g p.2) else p)

/-- HashMap `remove(k)`. -/
def assocRemove {α β : Type} [DecidableEq α] (k : α) (l : List (α × β)) :
    List (α × β) :=
  l.filter (fun p => p.1 ≠ k)

/-- From src/src/model/agent/preference.rs: a per-agent, per-product price belief. -/
structure Preference where
  original_price : ℚ
  original_elastic : ℚ
  current_price : ℚ
  current_range : ℚ × ℚ
deriving DecidableEq, Repr

/-- From src/src/model/agent.rs: an agent.  `preferences` mirrors the source's
`HashMap<ProductCategory, HashMap<u64, Preference>>` as nested association lists and
`demand` mirrors the key set of `HashMap<u64, bool>`.  The name and the lock wrappers
carry no state relevant to the claims. -/
structure Agent where
  id : ℕ
  preferences : List (ProductCategory × List (ℕ × Preference))
  cash : ℚ
  demand : List ℕ
deriving DecidableEq

/-- Lookup `preferences.get(&category).and_then(|cat| cat.get(&product_id))`. -/
def prefLookup (prefs : List (ProductCategory × List (ℕ × Preference)))
    (cat : ProductCategory) (pid : ℕ) : Option Preference :=
  (assocLookup cat prefs).bind (fun m => assocLookup pid m)

/-- Write back a preference at a key that is known to exist (`get_mut(..).unwrap()`). -/
def prefUpdate (prefs : List (ProductCategory × List (ℕ × Preference)))
    (cat : ProductCategory) (pid : ℕ) (v : Preference) :
    List (ProductCategory × List (ℕ × Preference)) :=
  assocModify cat (fun m => assocInsert pid v m) prefs

/-- From src/src/model/agent.rs: `has_demand` is key membership in the demand map. -/
def Agent.has_demand (a : Agent) (product_id : ℕ) : Bool :=
  product_id ∈ a.demand

/-- From src/src/model/agent.rs, `Agent::negotiate`: fail fast with `NotMatched` when
there is no demand, with `(Failed, CashBurnedOut)` when `cash < price`, otherwise
classify `price` against the preference's `current_range`.  The preference lookup uses
`.expect(..)`, so a missing preference is a panic (`none`).  The source takes `&self`:
no agent state is mutated, which the embedding reflects by returning only the pair. -/
def Agent.negotiate (a : Agent) (round : ℕ) (product_id : ℕ)
    (product_category : ProductCategory) (price : ℚ) :
    Option (TradeResult × IntervalRelation) :=
  let _ := round
  if ¬ a.has_demand product_id then
    some (TradeResult.NotMatched, IntervalRelation.AgentBelowFactory)
  else if a.cash < price then
    some (TradeResult.Failed, IntervalRelation.CashBurnedOut)
  else
    match prefLookup a.preferences product_category product_id with
    | none => none
    | some p =>
      let lower := p.current_range.1
      let upper := p.current_range.2
      let interval_relation :=
        if price < lower then IntervalRelation.AgentAboveFactory
        else if price > upper then IntervalRelation.AgentBelowFactory
        else IntervalRelation.Overlapping price
      let result :=
        match interval_relation with
        | IntervalRelation.Overlapping actual_price => TradeResult.Success actual_price
        | _ => TradeResult.Failed
      some (result, interval_relation)

/-- From src/src/model/factory/financial_bill.rs: one per factory per round. -/
structure FinancialBill where
  cash : ℚ
  units_sold : ℕ
  revenue : ℚ
  total_stock : ℕ
  total_production : ℕ
  initial_stock : ℕ
  rot_stock : ℕ
  remaining_stock : ℕ
  production_cost : ℚ
  profit : ℚ
deriving DecidableEq, Repr

/-- From src/src/model/factory/financial_bill.rs: `FinancialBill::new`. -/
def FinancialBill.new (cash : ℚ) : FinancialBill :=
  { cash := cash, units_sold := 0, revenue := 0, total_stock := 0,
    total_production := 0, initial_stock := 0, rot_stock := 0,
    remaining_stock := 0, production_cost := 0, profit := 0 }

/-- From src/src/model/factory/accountant.rs: the per-factory ledger, a bill map plus a
FIFO queue of round keys. -/
structure Accountant where
  bills : List (ℕ × FinancialBill)
  moments : List ℕ
deriving DecidableEq

/-- From src/src/model/factory/accountant.rs: `Accountant::new` seeds round 0. -/
def Accountant.new (cash : ℚ) : Accountant :=
  { bills := [(0, FinancialBill.new cash)], moments := [0] }

/-- Shared FIFO-window step: insert `(k, v)` into the map, push `k` to the queue's back,
and when the queue's length exceeds `B` pop its front and remove that key from the map.
This is the literal eviction pattern of both `Accountant::add_bill` (`B = 20`) and the
stock-window part of `Factory::start_round` (`B = 3`). -/
def windowPush {β : Type} (B : ℕ) (k : ℕ) (v : β) (m : List (ℕ × β)) (q : List ℕ) :
    List (ℕ × β) × List ℕ :=
  if (q ++ [k]).length > B then
    match q ++ [k] with
    | [] => (assocInsert k v m, q ++ [k])
    | oldest :: rest => (assocRemove oldest (assocInsert k v m), rest)
  else (assocInsert k v m, q ++ [k])

/-- From src/src/model/factory/accountant.rs: `Accountant::add_bill` with the 20-entry
eviction window. -/
def Accountant.add_bill (acc : Accountant) (moment : ℕ) (bill : FinancialBill) :
    Accountant :=
  let mq := windowPush 20 moment bill acc.bills acc.moments
  { bills := mq.1, moments := mq.2 }

/-- From src/src/model/factory/accountant.rs: `Accountant::get_bill_or_default` is
`bills.entry(round).or_insert_with(FinancialBill::new(0.0))` — it returns the stored
bill, inserting a fresh zero bill first when the round is absent.  Note that it does
NOT touch `moments` and performs no eviction. -/
def Accountant.get_bill_or_default (acc : Accountant) (round : ℕ) :
    FinancialBill × Accountant :=
  match assocLookup round acc.bills with
  | some b => (b, acc)
  | none =>
    (FinancialBill.new 0, { acc with bills := (round, FinancialBill.new 0) :: acc.bills })

/-- Writing through the `Arc<RwLock<FinancialBill>>` returned by
`get_bill_or_default` updates the stored bill; modelled as an explicit store. -/
def Accountant.setBill (acc : Accountant) (round : ℕ) (bill : FinancialBill) :
    Accountant :=
  { acc with bills := assocInsert round bill acc.bills }

/-- Rust `as u16` on an `f64`: truncate toward zero, saturating at 0 and 65535. -/
def f64_as_u16 (q : ℚ) : ℕ :=
  if q < 0 then 0 else min 65535 ⌊q⌋.toNat

/-- Half of `f64::MAX` (exactly `(2^1024 - 2^971) / 2`), the cap used in `Factory::new`. -/
def halfF64Max : ℚ := 2 ^ 1023 - 2 ^ 970

/-- From src/src/model/factory.rs: a factory.  The name carries no claim-relevant
state and is omitted. -/
structure Factory where
  id : ℕ
  product_id : ℕ
  accountant : Accountant
  product_category : ProductCategory
  supply_price_range : ℚ × ℚ
  amount : List (ℕ × ℕ)
  remaining_stock : ℕ
  durability : ℚ
  product_cost : ℚ
  u64_list : List ℕ
  cash : ℚ
  initial_stock : ℕ
  risk_appetite : ℚ
deriving DecidableEq

/-- From src/src/model/factory.rs, `Factory::new`.  The four random samples/draws
(`price_sample` from the price distribution, `lower_draw ∈ [0, reference_price)`,
`upper_draw ∈ [lower, upper_bound)`, `cost_sample` from the cost distribution,
`cash_sample` from the price distribution, `risk_draw ∈ [0.1, 0.9)`) are explicit
arguments; their range constraints are stated by `factoryNewDrawsValid`. -/
def Factory.new (id : ℕ) (product_id : ℕ) (cat : ProductCategory) (durability : ℚ)
    (price_sample cost_sample cash_sample lower_draw upper_draw risk_draw : ℚ) :
    Factory :=
  let cash := (max cash_sample 10) * 10
  { id := id
    product_id := product_id
    accountant := Accountant.new cash
    product_category := cat
    supply_price_range := (lower_draw, upper_draw)
    amount := []
    remaining_stock := 0
    durability := durability
    product_cost := max cost_sample (1/10)
    u64_list := []
    cash := cash
    initial_stock := 0
    risk_appetite := risk_draw }

/-- The constraints `Factory::new`'s rng calls impose on the draws fed to
`Factory.new`:
`reference_price = price_sample.max(1.0).min(f64::MAX / 2)`,
`lower ∈ [0, reference_price)`,
`upper ∈ [lower, (reference_price * 1.5).min(f64::MAX / 2))`, and
`risk_appetite ∈ [0.1, 0.9)`. -/
def factoryNewDrawsValid (price_sample lower_draw upper_draw risk_draw : ℚ) : Prop :=
  let reference_price := min (max price_sample 1) halfF64Max
  let upper_bound := min (reference_price + reference_price * (5/10)) halfF64Max
  0 ≤ lower_draw ∧ lower_draw < reference_price ∧
    lower_draw ≤ upper_draw ∧ upper_draw < upper_bound ∧
    1/10 ≤ risk_draw ∧ risk_draw < 9/10

instance (a b c d : ℚ) : Decidable (factoryNewDrawsValid a b c d) := by
  unfold factoryNewDrawsValid
  infer_instance

/-- From src/src/model/factory.rs: `get_stock` defaults to 10 for a round key that is
absent from the bounded window. -/
def Factory.get_stock (f : Factory) (round : ℕ) : ℕ :=
  (assocLookup round f.amount).getD 10

/-- From src/src/model/factory.rs, `Factory::start_round`: plan production from last
round's bill, cap it by the affordability ceiling, debit cash, record the new stock in
the bill and in the 3-round bounded window. -/
def Factory.start_round (f : Factory) (round : ℕ) : Factory :=
  let r1 := f.accountant.get_bill_or_default (round - 1)
  let last_bill := r1.1
  let acc1 := r1.2
  let prediction_production : ℕ :=
    if last_bill.initial_stock = 0 then 1
    else if last_bill.remaining_stock = 0 then
      f64_as_u16 ((last_bill.initial_stock : ℚ) * (11/10 + 4/10 * f.risk_appetite))
    else max last_bill.total_production 1
  let production_under_budget := f64_as_u16 (f.cash * f.risk_appetite / f.product_cost)
  let need_production := min prediction_production production_under_budget
  let initial_stock := last_bill.remaining_stock + need_production
  let cost := (need_production : ℚ) * f.product_cost
  let cash := f.cash - cost
  let r2 := acc1.get_bill_or_default round
  let bill := { r2.1 with
    cash := cash,
    initial_stock := initial_stock,
    total_production := need_production }
  let acc3 := r2.2.setBill round bill
  let mq := windowPush 3 round initial_stock f.amount f.u64_list
  { f with accountant := acc3, cash := cash, initial_stock := initial_stock,
           amount := mq.1, u64_list := mq.2 }

/-- From src/src/model/factory.rs, `get_range_change_ratio`: −0.01 for a missing
relation, `Overlapping` or `AgentBelowFactory`, and +0.01 for `AgentAboveFactory`.
The source match has no arm for `CashBurnedOut`; that case is modelled as `none`. -/
def get_range_change_ratio (interval_relation : Option IntervalRelation) : Option ℚ :=
  match interval_relation with
  | none => some (-(1/100))
  | some (IntervalRelation.Overlapping _) => some (-(1/100))
  | some IntervalRelation.AgentBelowFactory => some (-(1/100))
  | some IntervalRelation.AgentAboveFactory => some (1/100)
  | some IntervalRelation.CashBurnedOut => none

/-- From src/src/model/factory.rs, `factory_shift_range_by_ratio`: shift, then if the
shifted lower endpoint is below `min_cost` translate the whole interval up so that the
lower endpoint sits exactly at `min_cost`. -/
def factory_shift_range_by_ratio (range : ℚ × ℚ) (min_cost : ℚ) (ratio : ℚ) : ℚ × ℚ :=
  let s := shift_range_by_ratio range ratio
  if s.1 < min_cost then (min_cost, min_cost + (s.2 - s.1)) else s

/-- From src/src/model/factory.rs, `Factory::deal`, outcome dispatch: a `Failed` deal
shifts the supply range by the relation-derived ratio, a `Success(price)` deal shifts
it up by 1%, decrements the round's stock entry and credits the price;
`NotMatched`/`NotYet` do nothing. -/
def Factory.dealCore (f : Factory) (result : TradeResult) (round : ℕ)
    (interval_relation : Option IntervalRelation) : Option Factory :=
  match result with
  | TradeResult.NotMatched => some f
  | TradeResult.NotYet => some f
  | TradeResult.Failed =>
    match get_range_change_ratio interval_relation with
    | none => none
    | some ratio =>
      some { f with supply_price_range :=
               factory_shift_range_by_ratio f.supply_price_range f.product_cost ratio }
  | TradeResult.Success price =>
    some { f with
      supply_price_range :=
        factory_shift_range_by_ratio f.supply_price_range f.product_cost (1/100),
      amount := assocModify round (fun e => e - 1) f.amount,
      cash := f.cash + price }

/-- From src/src/model/factory.rs, `Factory::deal`, continued: the early stock-guard
(`if let Some(amount) .. if *amount <= 0 return`) in front of `Factory.dealCore`. -/
def Factory.deal (f : Factory) (result : TradeResult) (round : ℕ)
    (interval_relation : Option IntervalRelation) : Option Factory :=
  match assocLookup round f.amount with
  | some a => if a = 0 then some f else f.dealCore result round interval_relation
  | none => f.dealCore result round interval_relation

/-- From src/src/model/factory.rs, `Factory::settling_after_round`: compute rot, sales,
revenue and profit for the round and close the bill.  `(initial - remaining).max(0)` on
`u16` is truncated subtraction. -/
def Factory.settling_after_round (f : Factory) (round : ℕ) : Factory :=
  let r1 := f.accountant.get_bill_or_default round
  let acc1 := r1.2
  let remaining_stock := (assocLookup round f.amount).getD 0
  let rot_stock := f64_as_u16 ((remaining_stock : ℚ) * (1 - f.durability))
  let sales_amount := r1.1.initial_stock - remaining_stock
  let revenue := r1.1.cash - f.cash
  let bill := { r1.1 with
    rot_stock := rot_stock,
    units_sold := sales_amount,
    revenue := revenue,
    cash := f.cash,
    remaining_stock := remaining_stock - rot_stock,
    profit := revenue - ((sales_amount + rot_stock : ℕ) : ℚ) * f.product_cost }
  { f with accountant := acc1.setBill round bill }

/-- From src/src/model/agent.rs: `remove_demand` deletes the demand key (the rest of
the source function only emits a log record). -/
def Agent.remove_demand (a : Agent) (product_id : ℕ) : Agent :=
  { a with demand := a.demand.filter (fun k => k ≠ product_id) }

/-- From src/src/model/agent.rs: `get_specific_preference`, whose `.expect` is a panic
(`none`) when the preference is missing. -/
def Agent.get_specific_preference (a : Agent) (product_id : ℕ)
    (product_category : ProductCategory) : Option Preference :=
  prefLookup a.preferences product_category product_id

/-- From src/src/model/agent.rs: `set_preference_detail` returns immediately when both
arguments are `none`, otherwise writes the given price and/or range through
`get_mut(..).unwrap()` (a panic — `none` — when the preference is missing). -/
def Agent.set_preference_detail (a : Agent) (product_category : ProductCategory)
    (product_id : ℕ) (price : Option ℚ) (range : Option (ℚ × ℚ)) : Option Agent :=
  match price, range with
  | none, none => some a
  | price, range =>
    match prefLookup a.preferences product_category product_id with
    | none => none
    | some preference =>
      let p1 := match price with
        | some pr => { preference with current_price := pr }
        | none => preference
      let p2 := match range with
        | some r => { p1 with current_range := r }
        | none => p1
      some { a with preferences := prefUpdate a.preferences product_category product_id p2 }

/-- From src/src/model/agent.rs, `Agent::handle_trade_failure`.  `random_value` is the
uniform `[0,1)` draw rolled against `original_elastic`; when it wins the demand is
removed and nothing else happens.  A `CashBurnedOut` relation is a no-op.  Otherwise
the offered prices are counted against the current range, `min_price` is the minimum
of `current_price` and every offered price, and the range is reshaped by the
mixed/below/above/no-outlier branch.  The `factory` and `round` arguments of the
source feed only the log record. -/
def Agent.handle_trade_failure (a : Agent) (product_id : ℕ)
    (product_category : ProductCategory) (round : ℕ)
    (interval_relation : IntervalRelation) (offered_price : List ℚ)
    (random_value : ℚ) : Option Agent :=
  let _ := round
  match a.get_specific_preference product_id product_category with
  | none => none
  | some preference =>
    let delete_probability := preference.original_elastic
    if random_value < delete_probability then
      some (a.remove_demand product_id)
    else match interval_relation with
    | IntervalRelation.CashBurnedOut => some a
    | _ =>
      let above_count :=
        (offered_price.filter (fun price => price > preference.current_range.2)).length
      let lower_count :=
        (offered_price.filter (fun price => price < preference.current_range.1)).length
      let min_price := offered_price.foldl min preference.current_price
      let new_range :=
        if above_count > 0 ∧ lower_count > 0 then
          gen_new_range_with_price min_price preference.current_range (2/10)
        else if lower_count > 0 then
          gen_new_range_with_price min_price
            (shift_range_by_ratio preference.current_range (-(1/10))) (1/10)
        else if above_count > 0 then
          gen_new_range_with_price min_price
            (shift_range_by_ratio preference.current_range (1/10)) (1/10)
        else preference.current_range
      a.set_preference_detail product_category product_id (some min_price) (some new_range)

/-- From src/src/model/agent.rs, `Agent::handle_trade_success`: set `current_price` to
the trade price, debit cash by the price, contract the range width to
`max(old_width * 0.9, max(price * 0.05, 0.1))` centred at the price, clamp the lower
endpoint at 0 and force `upper ≥ lower + 0.1`.  The demand map is not touched.  The
`get_mut(..).unwrap()` chain is a panic (`none`) when the preference is missing. -/
def Agent.handle_trade_success (a : Agent) (round : ℕ) (product_id : ℕ)
    (product_category : ProductCategory) (price : ℚ) : Option Agent :=
  let _ := round
  match prefLookup a.preferences product_category product_id with
  | none => none
  | some preference =>
    let old_range := preference.current_range
    let old_length := old_range.2 - old_range.1
    let min_len := max (price * (5/100)) (1/10)
    let new_length := max (old_length * (9/10)) min_len
    let new_lower := max (price - new_length / 2) 0
    let new_upper := max (max (price + new_length / 2) 0) (new_lower + 1/10)
    some { a with
      cash := a.cash - price,
      preferences := prefUpdate a.preferences product_category product_id
        { preference with current_price := price, current_range := (new_lower, new_upper) } }

/-- From src/src/model/agent.rs, `Agent::settling` (lines 350–445): the entire former
body — the dispatch on the negotiation outcome — is commented out, and the function
body is the single expression `todo!()`, which panics unconditionally on every input.
The panic is modelled as `none`; no input produces a `some` result. -/
def Agent.settling (a : Agent) (factory : Factory) (round : ℕ) (result : TradeResult)
    (interval_relation : IntervalRelation) (offered_prices : List ℚ) :
    Option (Agent × (TradeResult × Option IntervalRelation)) :=
  let _ := (a, factory, round, result, interval_relation, offered_prices)
  none

/-- One call of the factory round API, for stating invariants over call sequences. -/
inductive FactoryOp where
  | start (round : ℕ)
  | trade (result : TradeResult) (round : ℕ) (interval_relation : Option IntervalRelation)
  | settle (round : ℕ)

/-- Apply one `FactoryOp` (`none` propagates a panic from `Factory.deal`). -/
def Factory.runOp (f : Factory) (op : FactoryOp) : Option Factory :=
  match op with
  | FactoryOp.start r => some (f.start_round r)
  | FactoryOp.trade res r rel => f.deal res r rel
  | FactoryOp.settle r => some (f.settling_after_round r)

/-- Apply a sequence of `FactoryOp`s left to right. -/
def Factory.runOps (f : Factory) (ops : List FactoryOp) : Option Factory :=
  match ops with
  | [] => some f
  | op :: rest =>
    match f.runOp op with
    | none => none
    | some f2 => f2.runOps rest

/-- A concrete preference used by the concrete test states below: belief range
`(10, 90)`, last realized `current_price = 1`, zero elasticity. -/
def foodPref : Preference :=
  { original_price := 50, original_elastic := 0, current_price := 1,
    current_range := (10, 90) }

/-- A concrete agent with cash 100 and active demand for product 1. -/
def agentA : Agent :=
  { id := 1, preferences := [(ProductCategory.Food, [(1, foodPref)])],
    cash := 100, demand := [1] }

/-- A concrete agent for the width-contraction scenario: range `(0, 10)`. -/
def agentE : Agent :=
  { id := 2,
    preferences := [(ProductCategory.Food,
      [(1, { foodPref with current_range := (0, 10) })])],
    cash := 100, demand := [1] }

/-- A concrete factory built by `Factory.new` from in-range draws: the price sample 10
gives `reference_price = 10`, the range draws are `lower = 1`, `upper = 2`, the cost
sample 5 gives `product_cost = 5`, the cash sample 100 gives `cash = 1000`, and
`risk_appetite = 1/2`. -/
def factoryB : Factory :=
  Factory.new 1 1 ProductCategory.Food (1/2) 10 5 100 1 2 (1/2)

/-- Factory `factoryB` mid-round: supply range `(100, 200)`, unit cost 1, five units
of round-1 stock in the bounded window. -/
def factoryD : Factory :=
  { factoryB with
    supply_price_range := (100, 200),
    product_cost := 1,
    amount := [(1, 5)],
    u64_list := [1] }

/-- A concrete agent with insufficient cash (30) for a price of 50. -/
def agentC : Agent :=
  { agentA with cash := 30 }

/-- Invariant of the two FIFO-bounded maps: every key of the map is in the queue, the
queue holds at most `B` entries, and the map's keys are distinct. -/
def windowInv {β : Type} (B : ℕ) (m : List (ℕ × β)) (q : List ℕ) : Prop :=
  (∀ k ∈ m.map Prod.fst, k ∈ q) ∧ q.length ≤ B ∧ (m.map Prod.fst).Nodup

-- helper lemmas

theorem assocLookup_cons {α β : Type} [DecidableEq α] (k k2 : α) (v : β)
    (rest : List (α × β)) :
    assocLookup k ((k2, v) :: rest) = if k2 = k then some v else assocLookup k rest := rfl

theorem assocLookup_eq_none {α β : Type} [DecidableEq α] (k : α) (l : List (α × β)) :
    assocLookup k l = none ↔ k ∉ l.map Prod.fst := by
  induction l with
  | nil => simp [assocLookup]
  | cons hd tl ih =>
    obtain ⟨k2, v⟩ := hd
    rw [assocLookup_cons]
    by_cases hk : k2 = k
    · subst hk
      rw [if_pos rfl]
      simp
    · rw [if_neg hk]
      simp only [List.map_cons, List.mem_cons, ih]
      constructor
      · intro h hmem
        rcases hmem with h2 | h2
        · exact hk h2.symm
        · exact h h2
      · intro h h2
        exact h (Or.inr h2)

theorem assocLookup_assocInsert {α β : Type} [DecidableEq α] (k : α) (v : β)
    (l : List (α × β)) : assocLookup k (assocInsert k v l) = some v := by
  unfold assocInsert
  split
  · rename_i hsome
    induction l with
    | nil => simp [assocLookup] at hsome
    | cons hd tl ih =>
      obtain ⟨k2, v2⟩ := hd
      rw [List.map_cons]
      by_cases hk : k2 = k
      · subst hk
        rw [show (if ((k2, v2) : α × β).1 = k2 then (k2, v) else (k2, v2)) = (k2, v)
          from if_pos rfl]
        rw [assocLookup_cons, if_pos rfl]
      · rw [assocLookup_cons, if_neg hk] at hsome
        rw [show (if ((k2, v2) : α × β).1 = k then (k, v) else (k2, v2)) = (k2, v2)
          from if_neg hk]
        rw [assocLookup_cons, if_neg hk]
        exact ih hsome
  · rw [assocLookup_cons, if_pos rfl]

theorem assocLookup_assocModify {α β : Type} [DecidableEq α] (k : α) (g : β → β)
    (l : List (α × β)) :
    assocLookup k (assocModify k g l) = (assocLookup k l).map g := by
  induction l with
  | nil => simp [assocLookup, assocModify]
  | cons hd tl ih =>
    obtain ⟨k2, v2⟩ := hd
    unfold assocModify
    rw [List.map_cons]
    by_cases hk : k2 = k
    · subst hk
      rw [show (if ((k2, v2) : α × β).1 = k2 then (((k2, v2) : α × β).1, g v2)
        else (k2, v2)) = (k2, g v2) from if_pos rfl]
      rw [assocLookup_cons, if_pos rfl, assocLookup_cons, if_pos rfl]
      rfl
    · rw [show (if ((k2, v2) : α × β).1 = k then (((k2, v2) : α × β).1, g v2)
        else (k2, v2)) = (k2, v2) from if_neg hk]
      rw [assocLookup_cons, if_neg hk, assocLookup_cons, if_neg hk]
      exact ih

theorem keys_assocModify {α β : Type} [DecidableEq α] (k : α) (g : β → β)
    (l : List (α × β)) : (assocModify k g l).map Prod.fst = l.map Prod.fst := by
  unfold assocModify
  rw [List.map_map]
  apply List.map_congr_left
  intro p hp
  by_cases hpk : p.1 = k
  · simp [hpk]
  · simp [hpk]

theorem keys_assocInsert_of_isSome {α β : Type} [DecidableEq α] (k : α) (v : β)
    (l : List (α × β)) (h : (assocLookup k l).isSome) :
    (assocInsert k v l).map Prod.fst = l.map Prod.fst := by
  unfold assocInsert
  rw [if_pos h]
  rw [List.map_map]
  apply List.map_congr_left
  intro p hp
  by_cases hpk : p.1 = k
  · simp [hpk]
  · simp [hpk]

theorem keys_assocInsert_of_none {α β : Type} [DecidableEq α] (k : α) (v : β)
    (l : List (α × β)) (h : assocLookup k l = none) :
    (assocInsert k v l).map Prod.fst = k :: l.map Prod.fst := by
  unfold assocInsert
  rw [if_neg (by simp [h])]
  simp

theorem mem_keys_assocInsert {α β : Type} [DecidableEq α] {j k : α} {v : β}
    {l : List (α × β)} (h : j ∈ (assocInsert k v l).map Prod.fst) :
    j = k ∨ j ∈ l.map Prod.fst := by
  by_cases hs : (assocLookup k l).isSome
  · rw [keys_assocInsert_of_isSome k v l hs] at h
    exact Or.inr h
  · rw [keys_assocInsert_of_none k v l (by revert hs; cases assocLookup k l <;> simp)] at h
    simpa using h

theorem keys_nodup_assocInsert {α β : Type} [DecidableEq α] (k : α) (v : β)
    (l : List (α × β)) (h : (l.map Prod.fst).Nodup) :
    ((assocInsert k v l).map Prod.fst).Nodup := by
  by_cases hs : (assocLookup k l).isSome
  · rw [keys_assocInsert_of_isSome k v l hs]
    exact h
  · have hnone : assocLookup k l = none := by revert hs; cases assocLookup k l <;> simp
    rw [keys_assocInsert_of_none k v l hnone]
    exact List.Nodup.cons ((assocLookup_eq_none k l).1 hnone) h

theorem keys_assocRemove {α β : Type} [DecidableEq α] (k : α) (l : List (α × β)) :
    (assocRemove k l).map Prod.fst = (l.map Prod.fst).filter (fun j => j ≠ k) := by
  induction l with
  | nil => simp [assocRemove]
  | cons hd tl ih =>
    obtain ⟨k2, v2⟩ := hd
    simp only [assocRemove] at ih ⊢
    by_cases hk : k2 = k
    · subst hk
      simpa [List.filter] using ih
    · simpa [List.filter, hk] using ih

theorem windowInv_push {β : Type} (B : ℕ) (k : ℕ) (v : β) (m : List (ℕ × β))
    (q : List ℕ) (h : windowInv B m q) :
    windowInv B (windowPush B k v m q).1 (windowPush B k v m q).2 := by
  obtain ⟨h1, h2, h3⟩ := h
  unfold windowPush
  split
  · rename_i hlen
    rcases hq : q ++ [k] with _ | ⟨oldest, rest⟩
    · exact absurd hq (by simp)
    · dsimp only
      refine ⟨?_, ?_, ?_⟩
      · intro j hj
        rw [keys_assocRemove] at hj
        rw [List.mem_filter] at hj
        obtain ⟨hjm, hne⟩ := hj
        have hne2 : j ≠ oldest := by simpa using hne
        have hjq2 : j ∈ q ++ [k] := by
          rcases mem_keys_assocInsert hjm with hjk | hjm2
          · simp [hjk]
          · exact List.mem_append_left _ (h1 j hjm2)
        rw [hq] at hjq2
        rcases List.mem_cons.1 hjq2 with rfl | hrest
        · exact absurd rfl hne2
        · exact hrest
      · have hq2 : (q ++ [k]).length = rest.length + 1 := by rw [hq]; simp
        have hlen2 : (q ++ [k]).length ≤ B + 1 := by simpa using Nat.add_le_add_right h2 1
        omega
      · rw [keys_assocRemove]
        exact (keys_nodup_assocInsert k v m h3).filter _
  · rename_i hlen
    refine ⟨?_, by simpa using Nat.le_of_not_lt hlen, keys_nodup_assocInsert k v m h3⟩
    intro j hj
    rcases mem_keys_assocInsert hj with rfl | hjm
    · simp
    · exact List.mem_append_left _ (h1 j hjm)

theorem windowInv_length {β : Type} (B : ℕ) (m : List (ℕ × β)) (q : List ℕ)
    (h : windowInv B m q) : m.length ≤ B := by
  obtain ⟨h1, h2, h3⟩ := h
  have hsub : m.map Prod.fst ⊆ q := fun x hx => h1 x hx
  have hle := (h3.subperm hsub).length_le
  simpa using hle.trans h2

theorem windowInv_of_keys_eq {β : Type} (B : ℕ) {m m2 : List (ℕ × β)} {q : List ℕ}
    (hk : m2.map Prod.fst = m.map Prod.fst) (h : windowInv B m q) : windowInv B m2 q := by
  obtain ⟨h1, h2, h3⟩ := h
  exact ⟨fun j hj => h1 j (hk ▸ hj), h2, hk ▸ h3⟩

theorem start_round_window (f : Factory) (round : ℕ) :
    ∃ v, (f.start_round round).amount = (windowPush 3 round v f.amount f.u64_list).1 ∧
      (f.start_round round).u64_list = (windowPush 3 round v f.amount f.u64_list).2 :=
  ⟨_, rfl, rfl⟩

theorem settling_after_round_window (f : Factory) (round : ℕ) :
    (f.settling_after_round round).amount = f.amount ∧
      (f.settling_after_round round).u64_list = f.u64_list :=
  ⟨rfl, rfl⟩

theorem dealCore_window (f : Factory) (result : TradeResult) (round : ℕ)
    (rel : Option IntervalRelation) (f2 : Factory)
    (h : f.dealCore result round rel = some f2) :
    f2.amount.map Prod.fst = f.amount.map Prod.fst ∧ f2.u64_list = f.u64_list := by
  cases result with
  | NotMatched => cases h; exact ⟨rfl, rfl⟩
  | NotYet => cases h; exact ⟨rfl, rfl⟩
  | Failed =>
    unfold Factory.dealCore at h
    revert h
    cases get_range_change_ratio rel with
    | none => intro h; cases h
    | some ratio => intro h; cases h; exact ⟨rfl, rfl⟩
  | Success price =>
    cases h
    refine ⟨?_, rfl⟩
    show (assocModify round (fun e => e - 1) f.amount).map Prod.fst = _
    exact keys_assocModify round (fun e => e - 1) f.amount

theorem deal_window (f : Factory) (result : TradeResult) (round : ℕ)
    (rel : Option IntervalRelation) (f2 : Factory)
    (h : f.deal result round rel = some f2) :
    f2.amount.map Prod.fst = f.amount.map Prod.fst ∧ f2.u64_list = f.u64_list := by
  unfold Factory.deal at h
  rcases hl : assocLookup round f.amount with _ | a
  · rw [hl] at h
    exact dealCore_window f result round rel f2 h
  · simp only [hl] at h
    by_cases ha : a = 0
    · rw [if_pos ha] at h
      cases h
      exact ⟨rfl, rfl⟩
    · rw [if_neg ha] at h
      exact dealCore_window f result round rel f2 h

theorem runOp_windowInv (f : Factory) (op : FactoryOp) (f2 : Factory)
    (h : windowInv 3 f.amount f.u64_list) (hr : f.runOp op = some f2) :
    windowInv 3 f2.amount f2.u64_list := by
  cases op with
  | start r =>
    cases hr
    obtain ⟨v, hv1, hv2⟩ := start_round_window f r
    rw [hv1, hv2]
    exact windowInv_push 3 r v f.amount f.u64_list h
  | trade res r rel =>
    obtain ⟨hk, hq⟩ := deal_window f res r rel f2 hr
    rw [hq]
    exact windowInv_of_keys_eq 3 hk h
  | settle r =>
    cases hr
    obtain ⟨h1, h2⟩ := settling_after_round_window f r
    rw [h1, h2]
    exact h

theorem runOps_windowInv (ops : List FactoryOp) (f f2 : Factory)
    (h : windowInv 3 f.amount f.u64_list) (hr : f.runOps ops = some f2) :
    windowInv 3 f2.amount f2.u64_list := by
  induction ops generalizing f with
  | nil =>
    unfold Factory.runOps at hr
    cases hr
    exact h
  | cons op rest ih =>
    unfold Factory.runOps at hr
    revert hr
    cases hop : f.runOp op with
    | none => intro hr; cases hr
    | some fnext =>
      intro hr
      exact ih fnext (runOp_windowInv f op fnext h hop) hr

theorem add_bill_windowInv (acc : Accountant) (moment : ℕ) (bill : FinancialBill)
    (h : windowInv 20 acc.bills acc.moments) :
    windowInv 20 (acc.add_bill moment bill).bills (acc.add_bill moment bill).moments :=
  windowInv_push 20 moment bill acc.bills acc.moments h

theorem add_bill_foldl_windowInv (entries : List (ℕ × FinancialBill)) (acc : Accountant)
    (h : windowInv 20 acc.bills acc.moments) :
    windowInv 20
      (entries.foldl (fun a mb => a.add_bill mb.1 mb.2) acc).bills
      (entries.foldl (fun a mb => a.add_bill mb.1 mb.2) acc).moments := by
  induction entries generalizing acc with
  | nil => exact h
  | cons e rest ih =>
    exact ih (acc.add_bill e.1 e.2) (add_bill_windowInv acc e.1 e.2 h)

theorem shift_range_by_ratio_lt (old_range : ℚ × ℚ) (rate : ℚ) :
    (shift_range_by_ratio old_range rate).1 < (shift_range_by_ratio old_range rate).2 := by
  simp only [shift_range_by_ratio]
  split
  · dsimp only
    linarith
  · rename_i hgt
    dsimp only
    linarith [not_le.mp hgt]

theorem factory_shift_range_spec (range : ℚ × ℚ) (cost ratio : ℚ) :
    cost ≤ (factory_shift_range_by_ratio range cost ratio).1 ∧
    (factory_shift_range_by_ratio range cost ratio).1 <
      (factory_shift_range_by_ratio range cost ratio).2 := by
  have h := shift_range_by_ratio_lt range ratio
  simp only [factory_shift_range_by_ratio]
  split
  · dsimp only
    exact ⟨le_refl cost, by linarith⟩
  · rename_i hge
    exact ⟨not_lt.mp hge, h⟩

theorem prefLookup_prefUpdate (prefs : List (ProductCategory × List (ℕ × Preference)))
    (cat : ProductCategory) (pid : ℕ) (v p : Preference)
    (hp : prefLookup prefs cat pid = some p) :
    prefLookup (prefUpdate prefs cat pid v) cat pid = some v := by
  unfold prefLookup prefUpdate
  unfold prefLookup at hp
  cases hcat : assocLookup cat prefs with
  | none => rw [hcat] at hp; cases hp
  | some m =>
    rw [assocLookup_assocModify, hcat]
    simp [assocLookup_assocInsert]

/-- C1: the claim that `settling` applies exactly one of `handle_trade_success` /
`handle_trade_failure` and returns normally is refuted by the source: the body of
`Agent::settling` is `todo!()` (its former dispatch is commented out), so every call
— in particular one carrying a `Success` outcome and the full offered-price list —
panics instead of returning. -/
theorem C1_settling_todo_panics (a : Agent) (factory : Factory) (round : ℕ)
    (result : TradeResult) (interval_relation : IntervalRelation)
    (offered_prices : List ℚ) :
    a.settling factory round result interval_relation offered_prices = none := rfl

/-- C2: `negotiate` returns `(NotMatched, _)` when the agent has no active demand,
`(Failed, CashBurnedOut)` when `cash < price`, and otherwise compares the price with
the preference's `current_range`: `(Success(price), Overlapping(price))` inside,
`(Failed, AgentAboveFactory)` strictly below the range, `(Failed, AgentBelowFactory)`
strictly above it.  `negotiate` takes the agent by shared reference and the embedding
returns only the outcome pair, so no agent state is mutated. -/
theorem C2_negotiate_spec (a : Agent) (round product_id : ℕ)
    (cat : ProductCategory) (price : ℚ) (p : Preference)
    (hp : prefLookup a.preferences cat product_id = some p)
    (hwf : p.current_range.1 ≤ p.current_range.2) :
    (a.has_demand product_id = false →
      a.negotiate round product_id cat price =
        some (TradeResult.NotMatched, IntervalRelation.AgentBelowFactory)) ∧
    (a.has_demand product_id = true → a.cash < price →
      a.negotiate round product_id cat price =
        some (TradeResult.Failed, IntervalRelation.CashBurnedOut)) ∧
    (a.has_demand product_id = true → ¬ a.cash < price →
      p.current_range.1 ≤ price → price ≤ p.current_range.2 →
      a.negotiate round product_id cat price =
        some (TradeResult.Success price, IntervalRelation.Overlapping price)) ∧
    (a.has_demand product_id = true → ¬ a.cash < price → price < p.current_range.1 →
      a.negotiate round product_id cat price =
        some (TradeResult.Failed, IntervalRelation.AgentAboveFactory)) ∧
    (a.has_demand product_id = true → ¬ a.cash < price → p.current_range.2 < price →
      a.negotiate round product_id cat price =
        some (TradeResult.Failed, IntervalRelation.AgentBelowFactory)) := by
  unfold Agent.negotiate
  refine ⟨?_, ?_, ?_, ?_, ?_⟩
  · intro hd
    rw [if_pos (by simp [hd])]
  · intro hd hc
    rw [if_neg (by simp [hd]), if_pos hc]
  · intro hd hc h1 h2
    rw [if_neg (by simp [hd]), if_neg hc]
    simp only [hp]
    rw [if_neg (not_lt.2 h1), if_neg (not_lt.2 h2)]
  · intro hd hc h1
    rw [if_neg (by simp [hd]), if_neg hc]
    simp only [hp]
    rw [if_pos h1]
  · intro hd hc h2
    rw [if_neg (by simp [hd]), if_neg hc]
    simp only [hp]
    rw [if_neg (not_lt.2 (le_of_lt (lt_of_le_of_lt hwf h2))), if_pos h2]

/-- C2 witness: the trade scenario at the concrete agent `agentA` (range `(10, 90)`,
cash 100, demand for product 1) with offered price 50. -/
theorem C2_negotiate_spec_witness :
    (prefLookup agentA.preferences ProductCategory.Food 1 = some foodPref ∧
      foodPref.current_range.1 ≤ foodPref.current_range.2 ∧
      agentA.has_demand 1 = true ∧ ¬ agentA.cash < 50 ∧
      foodPref.current_range.1 ≤ 50 ∧ (50 : ℚ) ≤ foodPref.current_range.2) ∧
    agentA.negotiate 0 1 ProductCategory.Food 50 =
      some (TradeResult.Success 50, IntervalRelation.Overlapping 50) := by
  have hp : prefLookup agentA.preferences ProductCategory.Food 1 = some foodPref := by
    decide
  have hwf : foodPref.current_range.1 ≤ foodPref.current_range.2 := by
    norm_num [foodPref]
  have hd : agentA.has_demand 1 = true := by decide
  have hc : ¬ agentA.cash < 50 := by norm_num [agentA]
  have h1 : foodPref.current_range.1 ≤ 50 := by norm_num [foodPref]
  have h2 : (50 : ℚ) ≤ foodPref.current_range.2 := by norm_num [foodPref]
  exact ⟨⟨hp, hwf, hd, hc, h1, h2⟩,
    (C2_negotiate_spec agentA 0 1 ProductCategory.Food 50 foodPref hp hwf).2.2.1 hd hc h1 h2⟩

/-- C3 counterexample: calling `handle_trade_success` on `agentA` (which has an active
demand for product 1) at price 50 leaves the demand entry in place — the demand map is
never touched by `handle_trade_success`, contradicting the clause "the agent's demand
entry for that product is removed". -/
theorem C3_counterexample_demand_not_cleared :
    agentA.has_demand 1 = true ∧
    (agentA.handle_trade_success 0 1 ProductCategory.Food 50).map
      (fun a2 => a2.has_demand 1) = some true := by
  constructor
  · decide
  · simp [agentA, foodPref, Agent.handle_trade_success, prefLookup, assocLookup,
      Agent.has_demand]

/-- C3 amended: after `handle_trade_success` at price `p` the agent's cash is
decremented by exactly `p` and the preference's `current_price` equals `p`, but the
demand entry is NOT removed — the demand map is left exactly as it was. -/
theorem C3_handle_trade_success_amended (a : Agent) (round product_id : ℕ)
    (cat : ProductCategory) (price : ℚ) (p : Preference)
    (hp : prefLookup a.preferences cat product_id = some p) :
    ∃ a2, a.handle_trade_success round product_id cat price = some a2 ∧
      a2.cash = a.cash - price ∧
      (prefLookup a2.preferences cat product_id).map Preference.current_price =
        some price ∧
      a2.demand = a.demand := by
  unfold Agent.handle_trade_success
  simp only [hp]
  refine ⟨_, rfl, rfl, ?_, rfl⟩
  rw [prefLookup_prefUpdate a.preferences cat product_id _ p hp]
  rfl

/-- C3 witness: the amended statement at `agentA`, price 50. -/
theorem C3_handle_trade_success_amended_witness :
    prefLookup agentA.preferences ProductCategory.Food 1 = some foodPref ∧
    (∃ a2, agentA.handle_trade_success 0 1 ProductCategory.Food 50 = some a2 ∧
      a2.cash = agentA.cash - 50 ∧
      (prefLookup a2.preferences ProductCategory.Food 1).map Preference.current_price =
        some 50 ∧
      a2.demand = agentA.demand) :=
  ⟨by decide,
    C3_handle_trade_success_amended agentA 0 1 ProductCategory.Food 50 foodPref (by decide)⟩

/-- C5: after `handle_trade_success` at price `p`, the pre-clamp width is
`max(old_width * 0.9, max(p * 0.05, 0.1))`, the pre-clamp range is centred at `p`,
and the stored range is the clamp of that candidate, with `lower ≥ 0` and
`upper ≥ lower + 0.1`. -/
theorem C5_handle_trade_success_width (a : Agent) (round product_id : ℕ)
    (cat : ProductCategory) (price : ℚ) (p : Preference)
    (hp : prefLookup a.preferences cat product_id = some p) :
    ∃ a2, a.handle_trade_success round product_id cat price = some a2 ∧
      ∃ w lo hi,
        w = max ((p.current_range.2 - p.current_range.1) * (9/10))
          (max (price * (5/100)) (1/10)) ∧
        lo = max (price - w / 2) 0 ∧
        hi = max (max (price + w / 2) 0) (lo + 1/10) ∧
        (prefLookup a2.preferences cat product_id).map Preference.current_range =
          some (lo, hi) ∧
        0 ≤ lo ∧ lo + 1/10 ≤ hi ∧
        (price - w / 2) + (price + w / 2) = 2 * price := by
  unfold Agent.handle_trade_success
  simp only [hp]
  refine ⟨_, rfl, _, _, _, rfl, rfl, rfl, ?_, le_max_right _ _, le_max_right _ _,
    by ring⟩
  rw [prefLookup_prefUpdate a.preferences cat product_id _ p hp]
  rfl

/-- C5 witness: scenario E — range `(0, 10)` and price `0.1` give the clamped range
`(0, 4.6)`, in particular the lower endpoint is clamped to 0. -/
theorem C5_handle_trade_success_width_witness :
    prefLookup agentE.preferences ProductCategory.Food 1 =
      some { foodPref with current_range := (0, 10) } ∧
    (∃ a2, agentE.handle_trade_success 0 1 ProductCategory.Food (1/10) = some a2 ∧
      ∃ w lo hi,
        w = max ((((0 : ℚ), (10 : ℚ)).2 - ((0 : ℚ), (10 : ℚ)).1) * (9/10))
          (max ((1/10) * (5/100)) (1/10)) ∧
        lo = max (1/10 - w / 2) 0 ∧
        hi = max (max (1/10 + w / 2) 0) (lo + 1/10) ∧
        (prefLookup a2.preferences ProductCategory.Food 1).map Preference.current_range =
          some (lo, hi) ∧
        0 ≤ lo ∧ lo + 1/10 ≤ hi ∧
        (1/10 - w / 2) + (1/10 + w / 2) = 2 * (1/10)) ∧
    (agentE.handle_trade_success 0 1 ProductCategory.Food (1/10)).map
      (fun a2 => (prefLookup a2.preferences ProductCategory.Food 1).map
        Preference.current_range) = some (some (0, 23/5)) := by
  refine ⟨by decide, ?_, ?_⟩
  · exact C5_handle_trade_success_width agentE 0 1 ProductCategory.Food (1/10)
      { foodPref with current_range := (0, 10) } (by decide)
  · norm_num [agentE, foodPref, Agent.handle_trade_success, prefLookup, prefUpdate,
      assocLookup, assocInsert, assocModify]

/-- C9: a `NotMatched` or `NotYet` deal leaves the whole factory state — in particular
`supply_price_range`, `cash` and the round's stock — untouched. -/
theorem C9_deal_notmatched_notyet_noop (f : Factory) (round : ℕ)
    (rel : Option IntervalRelation) :
    f.deal TradeResult.NotMatched round rel = some f ∧
    f.deal TradeResult.NotYet round rel = some f := by
  constructor <;>
  · unfold Factory.deal Factory.dealCore
    split
    · split
      · rfl
      · rfl
    · rfl

/-- C10: `get_stock` returns the default 10 — a positive stock — for any round key
absent from the bounded window. -/
theorem C10_get_stock_default (f : Factory) (round : ℕ)
    (h : assocLookup round f.amount = none) :
    f.get_stock round = 10 ∧ 0 < f.get_stock round := by
  unfold Factory.get_stock
  rw [h]
  exact ⟨rfl, by norm_num⟩

/-- C10 witness: `factoryB` has an empty stock window, so round 3 reports stock 10. -/
theorem C10_get_stock_default_witness :
    assocLookup 3 factoryB.amount = none ∧
    (factoryB.get_stock 3 = 10 ∧ 0 < factoryB.get_stock 3) :=
  ⟨by decide, C10_get_stock_default factoryB 3 (by decide)⟩

/-- C4 counterexample: with belief `current_price = 1`, range `(10, 90)` and offered
prices `[5, 100]` (one on each side of the range), `handle_trade_failure` regenerates
the range around `min(current_price, offers) = 1` and stores `(0, 9)`; regenerating
around the minimum observed offer `5`, as the claim states, would give `(0, 13)`. -/
theorem C4_counterexample_min_price :
    (agentA.handle_trade_failure 1 ProductCategory.Food 0
      IntervalRelation.AgentBelowFactory [5, 100] (1/2)).map
      (fun a2 => (prefLookup a2.preferences ProductCategory.Food 1).map
        Preference.current_range) = some (some (0, 9)) ∧
    gen_new_range_with_price 5 (10, 90) (2/10) = (0, 13) ∧
    ((0 : ℚ), (9 : ℚ)) ≠ ((0 : ℚ), (13 : ℚ)) := by
  refine ⟨?_, ?_, by norm_num⟩
  · norm_num [agentA, foodPref, Agent.handle_trade_failure, Agent.get_specific_preference,
      Agent.set_preference_detail, prefLookup, prefUpdate, assocLookup, assocInsert,
      assocModify, gen_new_range_with_price, round_to_nearest_cent, rustRound]
  · norm_num [gen_new_range_with_price, round_to_nearest_cent, rustRound]

/-- C4 amended: when the elasticity roll does not fire and the relation is not
`CashBurnedOut`, `handle_trade_failure` reshapes the range around
`min_price = min(current_price, all offered prices)` (not around the minimum offer
alone): factor 0.2 on the current range when offers fall on both sides, 10% shift
down / up followed by a 0.1-factor reshape when offers fall only below / only above,
and no range change when no offer falls outside; `current_price` is always set to
`min_price` and the demand entry is kept. -/
theorem C4_handle_trade_failure_amended (a : Agent) (round product_id : ℕ)
    (cat : ProductCategory) (rel : IntervalRelation) (offered : List ℚ) (rv : ℚ)
    (p : Preference) (hp : prefLookup a.preferences cat product_id = some p)
    (hroll : ¬ rv < p.original_elastic) (hrel : rel ≠ IntervalRelation.CashBurnedOut) :
    ∃ a2, a.handle_trade_failure product_id cat round rel offered rv = some a2 ∧
      (prefLookup a2.preferences cat product_id).map Preference.current_range =
        some
          (if (offered.filter (fun price => price > p.current_range.2)).length > 0 ∧
              (offered.filter (fun price => price < p.current_range.1)).length > 0 then
            gen_new_range_with_price (offered.foldl min p.current_price)
              p.current_range (2/10)
          else if (offered.filter (fun price => price < p.current_range.1)).length > 0 then
            gen_new_range_with_price (offered.foldl min p.current_price)
              (shift_range_by_ratio p.current_range (-(1/10))) (1/10)
          else if (offered.filter (fun price => price > p.current_range.2)).length > 0 then
            gen_new_range_with_price (offered.foldl min p.current_price)
              (shift_range_by_ratio p.current_range (1/10)) (1/10)
          else p.current_range) ∧
      (prefLookup a2.preferences cat product_id).map Preference.current_price =
        some (offered.foldl min p.current_price) ∧
      a2.demand = a.demand := by
  unfold Agent.handle_trade_failure Agent.get_specific_preference
  simp only [hp]
  rw [if_neg hroll]
  cases rel with
  | CashBurnedOut => exact absurd rfl hrel
  | Overlapping q =>
    unfold Agent.set_preference_detail
    simp only [hp]
    refine ⟨_, rfl, ?_, ?_, rfl⟩ <;>
    · rw [prefLookup_prefUpdate a.preferences cat product_id _ p hp]
      rfl
  | AgentBelowFactory =>
    unfold Agent.set_preference_detail
    simp only [hp]
    refine ⟨_, rfl, ?_, ?_, rfl⟩ <;>
    · rw [prefLookup_prefUpdate a.preferences cat product_id _ p hp]
      rfl
  | AgentAboveFactory =>
    unfold Agent.set_preference_detail
    simp only [hp]
    refine ⟨_, rfl, ?_, ?_, rfl⟩ <;>
    · rw [prefLookup_prefUpdate a.preferences cat product_id _ p hp]
      rfl

/-- C4 witness: the amended statement at `agentA` (elasticity 0, roll 1/2, mixed
offers). -/
theorem C4_handle_trade_failure_amended_witness :
    (prefLookup agentA.preferences ProductCategory.Food 1 = some foodPref ∧
      ¬ (1/2 : ℚ) < foodPref.original_elastic ∧
      IntervalRelation.AgentBelowFactory ≠ IntervalRelation.CashBurnedOut) ∧
    (∃ a2, agentA.handle_trade_failure 1 ProductCategory.Food 0
        IntervalRelation.AgentBelowFactory [5, 100] (1/2) = some a2 ∧
      (prefLookup a2.preferences ProductCategory.Food 1).map Preference.current_range =
        some
          (if (([5, 100] : List ℚ).filter
                (fun price => price > foodPref.current_range.2)).length > 0 ∧
              (([5, 100] : List ℚ).filter
                (fun price => price < foodPref.current_range.1)).length > 0 then
            gen_new_range_with_price (([5, 100] : List ℚ).foldl min foodPref.current_price)
              foodPref.current_range (2/10)
          else if (([5, 100] : List ℚ).filter
                (fun price => price < foodPref.current_range.1)).length > 0 then
            gen_new_range_with_price (([5, 100] : List ℚ).foldl min foodPref.current_price)
              (shift_range_by_ratio foodPref.current_range (-(1/10))) (1/10)
          else if (([5, 100] : List ℚ).filter
                (fun price => price > foodPref.current_range.2)).length > 0 then
            gen_new_range_with_price (([5, 100] : List ℚ).foldl min foodPref.current_price)
              (shift_range_by_ratio foodPref.current_range (1/10)) (1/10)
          else foodPref.current_range) ∧
      (prefLookup a2.preferences ProductCategory.Food 1).map Preference.current_price =
        some (([5, 100] : List ℚ).foldl min foodPref.current_price) ∧
      a2.demand = agentA.demand) := by
  have hroll : ¬ (1/2 : ℚ) < foodPref.original_elastic := by norm_num [foodPref]
  exact ⟨⟨by decide, hroll, by decide⟩,
    C4_handle_trade_failure_amended agentA 0 1 ProductCategory.Food
      IntervalRelation.AgentBelowFactory [5, 100] (1/2) foodPref (by decide) hroll
      (by decide)⟩

/-- C6 counterexample: `Factory::new` draws the supply range from the price
distribution independently of the cost sample, so immediately after construction the
lower bound can lie below `product_cost`: with valid draws (reference price 10, range
draws 1 and 2, cost sample 5) the new factory has range `(1, 2)` and cost 5. -/
theorem C6_counterexample_construction_below_cost :
    factoryNewDrawsValid 10 1 2 (1/2) ∧
    factoryB = Factory.new 1 1 ProductCategory.Food (1/2) 10 5 100 1 2 (1/2) ∧
    factoryB.supply_price_range.1 < factoryB.product_cost := by
  refine ⟨?_, rfl, ?_⟩
  · norm_num [factoryNewDrawsValid, halfF64Max]
  · norm_num [factoryB, Factory.new]

theorem dealCore_range_spec (f : Factory) (result : TradeResult) (round : ℕ)
    (rel : Option IntervalRelation) (f2 : Factory)
    (h : f.dealCore result round rel = some f2)
    (h1 : result ≠ TradeResult.NotMatched) (h2 : result ≠ TradeResult.NotYet) :
    f.product_cost ≤ f2.supply_price_range.1 ∧
    f2.supply_price_range.1 < f2.supply_price_range.2 := by
  cases result with
  | NotMatched => exact absurd rfl h1
  | NotYet => exact absurd rfl h2
  | Failed =>
    unfold Factory.dealCore at h
    revert h
    cases get_range_change_ratio rel with
    | none => intro h; cases h
    | some ratio =>
      intro h
      cases h
      exact factory_shift_range_spec f.supply_price_range f.product_cost ratio
  | Success price =>
    cases h
    exact factory_shift_range_spec f.supply_price_range f.product_cost (1/100)

/-- C6 amended: after construction from in-range draws the supply range satisfies only
`0 ≤ lower ≤ upper` (the lower bound may sit below `product_cost`); every `Failed` or
`Success` deal that passes the stock guard re-establishes
`product_cost ≤ lower < upper` via `factory_shift_range_by_ratio`; and `start_round`
and `settling_after_round` never change the supply range. -/
theorem C6_supply_range_amended :
    (∀ (id pid : ℕ) (cat : ProductCategory) (d ps cs cas ld ud rd : ℚ),
      factoryNewDrawsValid ps ld ud rd →
      0 ≤ (Factory.new id pid cat d ps cs cas ld ud rd).supply_price_range.1 ∧
      (Factory.new id pid cat d ps cs cas ld ud rd).supply_price_range.1 ≤
        (Factory.new id pid cat d ps cs cas ld ud rd).supply_price_range.2) ∧
    (∀ (f : Factory) (round : ℕ) (rel : Option IntervalRelation)
      (result : TradeResult) (f2 : Factory),
      assocLookup round f.amount ≠ some 0 →
      result ≠ TradeResult.NotMatched → result ≠ TradeResult.NotYet →
      f.deal result round rel = some f2 →
      f.product_cost ≤ f2.supply_price_range.1 ∧
      f2.supply_price_range.1 < f2.supply_price_range.2) ∧
    (∀ (f : Factory) (round : ℕ),
      (f.start_round round).supply_price_range = f.supply_price_range ∧
      (f.settling_after_round round).supply_price_range = f.supply_price_range) := by
  refine ⟨?_, ?_, fun f round => ⟨rfl, rfl⟩⟩
  · intro id pid cat d ps cs cas ld ud rd hv
    obtain ⟨hv1, hv2, hv3, hv4, hv5, hv6⟩ := hv
    exact ⟨hv1, hv3⟩
  · intro f round rel result f2 hstock h1 h2 h
    unfold Factory.deal at h
    rcases hl : assocLookup round f.amount with _ | a
    · rw [hl] at h
      exact dealCore_range_spec f result round rel f2 h h1 h2
    · simp only [hl] at h
      have ha : a ≠ 0 := by
        intro haz
        exact hstock (by rw [hl, haz])
      rw [if_neg ha] at h
      exact dealCore_range_spec f result round rel f2 h h1 h2

/-- C6 witness: the amended statement at the concrete factory states — construction
bounds at `factoryB`'s draws, a `Failed` deal at `factoryD`, and the frame equalities. -/
theorem C6_supply_range_amended_witness :
    factoryNewDrawsValid 10 1 2 (1/2) ∧
    assocLookup 1 factoryD.amount ≠ some 0 ∧
    (0 ≤ factoryB.supply_price_range.1 ∧
      factoryB.supply_price_range.1 ≤ factoryB.supply_price_range.2) ∧
    (∃ f2, factoryD.deal TradeResult.Failed 1 (some IntervalRelation.AgentAboveFactory)
        = some f2 ∧
      factoryD.product_cost ≤ f2.supply_price_range.1 ∧
      f2.supply_price_range.1 < f2.supply_price_range.2) ∧
    (factoryB.start_round 1).supply_price_range = factoryB.supply_price_range := by
  have hv : factoryNewDrawsValid 10 1 2 (1/2) := by
    norm_num [factoryNewDrawsValid, halfF64Max]
  have hs : assocLookup 1 factoryD.amount ≠ some 0 := by decide
  refine ⟨hv, hs,
    C6_supply_range_amended.1 1 1 ProductCategory.Food (1/2) 10 5 100 1 2 (1/2) hv,
    ⟨_, rfl, C6_supply_range_amended.2.1 factoryD 1
      (some IntervalRelation.AgentAboveFactory) TradeResult.Failed _ hs
      (by decide) (by decide) rfl⟩,
    (C6_supply_range_amended.2.2 factoryB 1).1⟩

/-- C7 counterexample: from a freshly constructed factory, 21 `settling_after_round`
calls (rounds 1 to 21) leave the Accountant holding 22 bills — `get_bill_or_default`
inserts without eviction, so the 20-bill bound fails for the round-lifecycle
operations. -/
theorem C7_counterexample_bills_exceed_20 :
    (Factory.runOps factoryB ((List.range 21).map (fun i => FactoryOp.settle (i + 1)))).map
      (fun f2 => f2.accountant.bills.length) = some 22 ∧ 20 < 22 :=
  ⟨by decide, by decide⟩

/-- C7 amended: the bounded stock window holds at most 3 round-keys after any sequence
of `start_round` / `deal` / `settling_after_round` calls on a freshly constructed
factory; the Accountant's bills map holds at most 20 entries under any sequence of
`add_bill` calls, but `get_bill_or_default` (used by `start_round` and
`settling_after_round`) inserts bills without eviction, so the 20-bill bound does not
hold for the round-lifecycle operations. -/
theorem C7_windows_amended :
    (∀ (id pid : ℕ) (cat : ProductCategory) (d ps cs cas ld ud rd : ℚ)
      (ops : List FactoryOp) (f2 : Factory),
      Factory.runOps (Factory.new id pid cat d ps cs cas ld ud rd) ops = some f2 →
      f2.amount.length ≤ 3) ∧
    (∀ (cash : ℚ) (entries : List (ℕ × FinancialBill)),
      (entries.foldl (fun acc mb => acc.add_bill mb.1 mb.2)
        (Accountant.new cash)).bills.length ≤ 20) := by
  constructor
  · intro id pid cat d ps cs cas ld ud rd ops f2 hr
    have h0 : windowInv 3 ([] : List (ℕ × ℕ)) ([] : List ℕ) := by
      refine ⟨?_, by simp, by simp⟩
      intro k hk
      simp at hk
    exact windowInv_length 3 _ _ (runOps_windowInv ops _ f2 h0 hr)
  · intro cash entries
    have h0 : windowInv 20 (Accountant.new cash).bills (Accountant.new cash).moments := by
      refine ⟨?_, by simp [Accountant.new], ?_⟩
      · intro k hk
        simp [Accountant.new] at hk ⊢
        exact hk
      · simp [Accountant.new]
    exact windowInv_length 20 _ _ (add_bill_foldl_windowInv entries _ h0)

/-- C7 witness: one settle call on a fresh factory keeps the window within 3 keys, and
an empty `add_bill` sequence keeps the ledger within 20 bills. -/
theorem C7_windows_amended_witness :
    (∃ f2, Factory.runOps (Factory.new 1 1 ProductCategory.Food (1/2) 10 5 100 1 2 (1/2))
        [FactoryOp.settle 1] = some f2 ∧ f2.amount.length ≤ 3) ∧
    (([] : List (ℕ × FinancialBill)).foldl (fun acc mb => acc.add_bill mb.1 mb.2)
      (Accountant.new 1000)).bills.length ≤ 20 :=
  ⟨⟨_, rfl, C7_windows_amended.1 1 1 ProductCategory.Food (1/2) 10 5 100 1 2 (1/2)
    [FactoryOp.settle 1] _ rfl⟩, C7_windows_amended.2 1000 []⟩

/-- C8: a `Success(price)` deal on a factory whose window records positive stock `s`
for the round credits exactly `price` to cash, decrements the round's stock to
`s - 1`, and shifts the supply range up 1% through `factory_shift_range_by_ratio`,
whose output lower bound never drops below `product_cost`. -/
theorem C8_deal_success_spec (f : Factory) (round : ℕ) (price : ℚ)
    (rel : Option IntervalRelation) (s : ℕ)
    (hs : assocLookup round f.amount = some s) (hpos : 0 < s) :
    ∃ f2, f.deal (TradeResult.Success price) round rel = some f2 ∧
      f2.cash = f.cash + price ∧
      assocLookup round f2.amount = some (s - 1) ∧
      f2.supply_price_range =
        factory_shift_range_by_ratio f.supply_price_range f.product_cost (1/100) ∧
      f.product_cost ≤ f2.supply_price_range.1 := by
  unfold Factory.deal
  simp only [hs]
  rw [if_neg (Nat.pos_iff_ne_zero.1 hpos)]
  unfold Factory.dealCore
  refine ⟨_, rfl, rfl, ?_, rfl,
    (factory_shift_range_spec f.supply_price_range f.product_cost (1/100)).1⟩
  show assocLookup round (assocModify round (fun e => e - 1) f.amount) = some (s - 1)
  rw [assocLookup_assocModify, hs]
  rfl

/-- C8 witness: the concrete deal at `factoryD` (stock 5, price 150). -/
theorem C8_deal_success_spec_witness :
    (assocLookup 1 factoryD.amount = some 5 ∧ 0 < 5) ∧
    (∃ f2, factoryD.deal (TradeResult.Success 150) 1 none = some f2 ∧
      f2.cash = factoryD.cash + 150 ∧
      assocLookup 1 f2.amount = some (5 - 1) ∧
      f2.supply_price_range =
        factory_shift_range_by_ratio factoryD.supply_price_range factoryD.product_cost
          (1/100) ∧
      factoryD.product_cost ≤ f2.supply_price_range.1) :=
  ⟨⟨by decide, by decide⟩, C8_deal_success_spec factoryD 1 150 none 5 (by decide) (by decide)⟩
